import Mathlib

/-!
Verification of the apollo-next client-side validation core: the taxpayer-id
checksum validators (`validarCPF`, `validarCNPJ`), the Zod form schemas
(`produtoSchema`, `funcionarioSchema.salario`, `funcionarioSchema.dataAdmissao`),
and the submit pipeline (per-field error mapping, first-error toast,
duplicate-identifier check) from the form pages.

Machine numbers are modelled as `Nat`/`ℚ`; JS strings as Lean `String`
(a list of characters).
-/

/-- Numeric value of an ASCII digit character, as `parseInt` computes it on a
single digit character. -/
def dval (c : Char) : Nat := c.toNat - 48

/-- `s.replace(/\D/g, "")`: keep only the ASCII digit characters of `s`. -/
def stripNonDigits (s : String) : String := String.mk (s.data.filter Char.isDigit)

/-- The digit values of the cleaned string `s.replace(/\D/g, "")`, in order. -/
def cleanDigits (s : String) : List Nat := (s.data.filter Char.isDigit).map dval

/-- The regex `^(\d)\1{k}$` applied to a cleaned digit string: every digit
equals the first one. -/
def allSameDigits (l : List Nat) : Bool := l.all (fun d => d == l.headD 0)

/-- The remainder step of `validarCPF` (lines 17-18 and 26-27 of
src/unnamed/part_007): `resto = (soma * 10) % 11`, and 10 or 11 becomes 0. -/
def cpfResto (soma : Nat) : Nat :=
  let r := soma * 10 % 11
  if r = 10 ∨ r = 11 then 0 else r

/-- The body of `validarCPF` on the cleaned digit list: require length 11,
reject repeated-digit strings, then compare both check digits computed by the
two weighted-sum loops of the source. -/
def cpfDigitsOk (l : List Nat) : Bool :=
  if l.length ≠ 11 then false
  else if allSameDigits l then false
  else if cpfResto ((List.range 9).foldl (fun soma i => soma + l.getD i 0 * (10 - i)) 0)
      ≠ l.getD 9 0 then false
  else if cpfResto ((List.range 10).foldl (fun soma i => soma + l.getD i 0 * (11 - i)) 0)
      ≠ l.getD 10 0 then false
  else true

/-- Shallow embedding of `validarCPF` (src/unnamed/part_007, lines 4-31). -/
def validarCPF (cpf : String) : Bool := cpfDigitsOk (cleanDigits cpf)

/-- First CPF check digit as the spec states it: remainder of
`(Σ_{i<9} digit i · (10 - i)) · 10` modulo 11, with remainder 10 or 11
treated as 0. -/
def cpfCheck1 (l : List Nat) : Nat :=
  let r := (∑ i ∈ Finset.range 9, l.getD i 0 * (10 - i)) * 10 % 11
  if r = 10 ∨ r = 11 then 0 else r

/-- Second CPF check digit as the spec states it: the same rule over positions
0..9 with weights `11 - i`. -/
def cpfCheck2 (l : List Nat) : Nat :=
  let r := (∑ i ∈ Finset.range 10, l.getD i 0 * (11 - i)) * 10 % 11
  if r = 10 ∨ r = 11 then 0 else r

/-- A left fold accumulating `f` over `List.range n` is the finite sum of `f`. -/
theorem foldl_add_range (f : Nat → Nat) (n : Nat) :
    (List.range n).foldl (fun acc i => acc + f i) 0 = ∑ i ∈ Finset.range n, f i := by
  induction n with
  | zero => simp
  | succ n ih =>
    rw [List.range_succ, List.foldl_append, Finset.sum_range_succ, ih]
    simp

theorem allSameDigits_iff (l : List Nat) :
    allSameDigits l = true ↔ ∀ d ∈ l, d = l.headD 0 := by
  simp [allSameDigits, List.all_eq_true]

theorem cpfDigitsOk_iff (l : List Nat) :
    cpfDigitsOk l = true ↔
      l.length = 11 ∧ ¬ (∀ d ∈ l, d = l.headD 0) ∧
      l.getD 9 0 = cpfCheck1 l ∧ l.getD 10 0 = cpfCheck2 l := by
  have e9 : (List.range 9).foldl (fun soma i => soma + l.getD i 0 * (10 - i)) 0
      = ∑ i ∈ Finset.range 9, l.getD i 0 * (10 - i) :=
    foldl_add_range (fun i => l.getD i 0 * (10 - i)) 9
  have e10 : (List.range 10).foldl (fun soma i => soma + l.getD i 0 * (11 - i)) 0
      = ∑ i ∈ Finset.range 10, l.getD i 0 * (11 - i) :=
    foldl_add_range (fun i => l.getD i 0 * (11 - i)) 10
  have hc1 : cpfCheck1 l = cpfResto (∑ i ∈ Finset.range 9, l.getD i 0 * (10 - i)) := rfl
  have hc2 : cpfCheck2 l = cpfResto (∑ i ∈ Finset.range 10, l.getD i 0 * (11 - i)) := rfl
  unfold cpfDigitsOk
  rw [e9, e10, ← hc1, ← hc2]
  split_ifs with h1 h2 h3 h4
  · exact iff_of_false (by simp) (fun h => h1 h.1)
  · exact iff_of_false (by simp) (fun h => h.2.1 ((allSameDigits_iff l).mp h2))
  · exact iff_of_false (by simp) (fun h => h3 h.2.2.1.symm)
  · exact iff_of_false (by simp) (fun h => h4 h.2.2.2.symm)
  · exact iff_of_true rfl
      ⟨not_not.mp h1, fun hf => h2 ((allSameDigits_iff l).mpr hf),
       (not_not.mp h3).symm, (not_not.mp h4).symm⟩

/-- C1: `validarCPF` returns true exactly when the cleaned input has length 11,
its digits are not all identical, and the digits at positions 9 and 10 equal
the two mod-11 check digits of the spec formula. -/
theorem validarCPF_characterization (s : String) :
    validarCPF s = true ↔
      (cleanDigits s).length = 11 ∧
      ¬ (∀ d ∈ cleanDigits s, d = (cleanDigits s).headD 0) ∧
      (cleanDigits s).getD 9 0 = cpfCheck1 (cleanDigits s) ∧
      (cleanDigits s).getD 10 0 = cpfCheck2 (cleanDigits s) :=
  cpfDigitsOk_iff (cleanDigits s)

/-- C3: the reference value "52998224725" is accepted by `validarCPF` and the
same string with a corrupted last digit is rejected. -/
theorem validarCPF_reference_values :
    validarCPF "52998224725" = true ∧ validarCPF "52998224726" = false := by
  decide

/-- The loop of `validarCNPJ` (lines 49-52 and 63-66 of src/unnamed/part_007):
accumulate `soma` over the digit list, with the mutable weight `pos` doing
`pos--` and then `if (pos < 2) pos = 9` after each position. -/
def cnpjSoma : List Nat → Nat → Nat
  | [], _ => 0
  | d :: rest, pos => d * pos + cnpjSoma rest (if pos - 1 < 2 then 9 else pos - 1)

/-- The check-digit step of `validarCNPJ`:
`resultado = soma % 11 < 2 ? 0 : 11 - (soma % 11)`. -/
def cnpjResultado (soma : Nat) : Nat :=
  if soma % 11 < 2 then 0 else 11 - soma % 11

/-- The body of `validarCNPJ` on the cleaned digit list: require length 14,
reject repeated-digit strings, then compare the digit at position 12 with the
check digit of the first 12 digits (weight seed `tamanho - 7 = 5`) and the
digit at position 13 with the check digit of the first 13 digits (seed 6). -/
def cnpjDigitsOk (l : List Nat) : Bool :=
  if l.length ≠ 14 then false
  else if allSameDigits l then false
  else if cnpjResultado (cnpjSoma (l.take 12) 5) ≠ l.getD 12 0 then false
  else if cnpjResultado (cnpjSoma (l.take 13) 6) ≠ l.getD 13 0 then false
  else true

/-- Shallow embedding of `validarCNPJ` (src/unnamed/part_007, lines 34-72). -/
def validarCNPJ (cnpj : String) : Bool := cnpjDigitsOk (cleanDigits cnpj)

/-- Spec weight rule: decrement the weight by 1 each position, resetting to 9
whenever it would drop below 2. -/
def specNext (w : Nat) : Nat := if w - 1 < 2 then 9 else w - 1

/-- The spec weight at position `j` when the starting weight is `start`. -/
def specWeight (start j : Nat) : Nat := specNext^[j] start

/-- Check digit from a weighted sum per the spec: `result = sum mod 11`; the
check digit is 0 if `result < 2`, else `11 - result`. -/
def specCheckDigit (soma : Nat) : Nat :=
  if soma % 11 < 2 then 0 else 11 - soma % 11

/-- The spec weighted sum over a base digit list with a given starting weight. -/
def cnpjSpecSum (base : List Nat) (start : Nat) : Nat :=
  ∑ j ∈ Finset.range base.length, base.getD j 0 * specWeight start j

/-- The stateful loop of the source equals the closed-form spec sum. -/
theorem cnpjSoma_eq_sum (l : List Nat) :
    ∀ pos, cnpjSoma l pos
      = ∑ j ∈ Finset.range l.length, l.getD j 0 * specWeight pos j := by
  induction l with
  | nil => intro pos; simp [cnpjSoma]
  | cons d rest ih =>
    intro pos
    have h1 : cnpjSoma (d :: rest) pos = d * pos + cnpjSoma rest (specNext pos) := rfl
    rw [h1, ih (specNext pos), List.length_cons, Finset.sum_range_succ']
    simp only [List.getD_cons_succ, List.getD_cons_zero, specWeight,
      Function.iterate_succ_apply, Function.iterate_zero, id_eq]
    exact Nat.add_comm _ _

theorem cnpjDigitsOk_iff (l : List Nat) :
    cnpjDigitsOk l = true ↔
      l.length = 14 ∧ ¬ (∀ d ∈ l, d = l.headD 0) ∧
      l.getD 12 0 = specCheckDigit (cnpjSpecSum (l.take 12) 5) ∧
      l.getD 13 0 = specCheckDigit (cnpjSpecSum (l.take 13) 6) := by
  have hs1 : cnpjSoma (l.take 12) 5 = cnpjSpecSum (l.take 12) 5 :=
    cnpjSoma_eq_sum (l.take 12) 5
  have hs2 : cnpjSoma (l.take 13) 6 = cnpjSpecSum (l.take 13) 6 :=
    cnpjSoma_eq_sum (l.take 13) 6
  have hr : ∀ x, cnpjResultado x = specCheckDigit x := fun _ => rfl
  unfold cnpjDigitsOk
  rw [hs1, hs2, hr, hr]
  split_ifs with h1 h2 h3 h4
  · exact iff_of_false (by simp) (fun h => h1 h.1)
  · exact iff_of_false (by simp) (fun h => h.2.1 ((allSameDigits_iff l).mp h2))
  · exact iff_of_false (by simp) (fun h => h3 h.2.2.1.symm)
  · exact iff_of_false (by simp) (fun h => h4 h.2.2.2.symm)
  · exact iff_of_true rfl
      ⟨not_not.mp h1, fun hf => h2 ((allSameDigits_iff l).mpr hf),
       (not_not.mp h3).symm, (not_not.mp h4).symm⟩

/-- C2: `validarCNPJ` returns true exactly when the cleaned input has length
14, its digits are not all identical, and the digits at positions 12 and 13
equal the spec check digits: first over the first 12 digits with starting
weight 5, then over the first 13 digits with starting weight 6, the weights
decrementing each position and resetting to 9 when they would drop below 2,
with `result = sum mod 11` mapped to 0 when below 2 and `11 - result`
otherwise. -/
theorem validarCNPJ_characterization (s : String) :
    validarCNPJ s = true ↔
      (cleanDigits s).length = 14 ∧
      ¬ (∀ d ∈ cleanDigits s, d = (cleanDigits s).headD 0) ∧
      (cleanDigits s).getD 12 0 = specCheckDigit (cnpjSpecSum ((cleanDigits s).take 12) 5) ∧
      (cleanDigits s).getD 13 0 = specCheckDigit (cnpjSpecSum ((cleanDigits s).take 13) 6) :=
  cnpjDigitsOk_iff (cleanDigits s)

/-- The known-valid entity-identifier reference string. -/
def cnpjRef : String := "11444777000161"

/-- Replace the character at position `p` of `s`. -/
def setCharAt (s : String) (p : Nat) (c : Char) : String :=
  String.mk (s.data.set p c)

/-- C4: the reference value "11444777000161" is accepted by `validarCNPJ`, and
replacing any single digit by any different digit is rejected. -/
theorem validarCNPJ_reference_values :
    validarCNPJ cnpjRef = true ∧
    ∀ p < 14, ∀ d < 10, d ≠ dval (cnpjRef.data.getD p '0') →
      validarCNPJ (setCharAt cnpjRef p (Char.ofNat (48 + d))) = false := by
  decide

/-- Witness: corrupting the last digit of the reference value to 0 is
rejected. -/
theorem validarCNPJ_reference_values_witness :
    validarCNPJ (setCharAt cnpjRef 13 (Char.ofNat (48 + 0))) = false :=
  validarCNPJ_reference_values.2 13 (by decide) 0 (by decide) (by decide)

theorem cleanDigits_stripNonDigits (s : String) :
    cleanDigits (stripNonDigits s) = cleanDigits s := by
  have h : (stripNonDigits s).data = s.data.filter Char.isDigit := rfl
  simp [cleanDigits, h, List.filter_filter]

/-- C9: both validators are invariant under stripping non-digit characters
from the input, because they clean the input themselves. -/
theorem checksum_format_invariance (s : String) :
    validarCPF (stripNonDigits s) = validarCPF s ∧
    validarCNPJ (stripNonDigits s) = validarCNPJ s := by
  unfold validarCPF validarCNPJ
  rw [cleanDigits_stripNonDigits]
  exact ⟨rfl, rfl⟩

/-- A Zod validation issue: a field path and a message. Zod path components
may also be array indices; in these schemas they are always field names, so
they are modelled as strings. -/
structure ZIssue where
  path : List String
  message : String
deriving DecidableEq

/-- A Product record as `produtoSchema` sees it, with its two prices as exact
rationals standing for the JS numbers. -/
structure Produto where
  nome : String
  descricao : String
  precoCusto : ℚ
  precoVenda : ℚ

/-- The ordered issue list produced by parsing with `produtoSchema`
(src/unnamed/part_007, lines 202-210): the field checks in declaration order
(`min(1)` on the two strings, `positive()` on the two numbers), followed by
the whole-record price refinement `precoVenda >= precoCusto` attached to
`precoVenda` (Zod runs the refinement also when field checks already failed,
as long as the field types are right, which the typed record guarantees). -/
def produtoIssues (p : Produto) : List ZIssue :=
  (if p.nome.length < 1 then [⟨["nome"], "Nome é obrigatório"⟩] else []) ++
  (if p.descricao.length < 1 then [⟨["descricao"], "Descrição é obrigatória"⟩] else []) ++
  (if p.precoCusto ≤ 0 then [⟨["precoCusto"], "Preço de custo deve ser maior que zero"⟩] else []) ++
  (if p.precoVenda ≤ 0 then [⟨["precoVenda"], "Preço de venda deve ser maior que zero"⟩] else []) ++
  (if p.precoVenda < p.precoCusto then
    [⟨["precoVenda"], "Preço de venda não pode ser menor que o preço de custo"⟩] else [])

theorem one_le_length_of_ne_empty (s : String) (h : s ≠ "") : 1 ≤ s.length := by
  cases s with
  | mk data =>
    cases data with
    | nil => exact absurd (by decide) h
    | cons c cs => exact Nat.succ_le_succ (Nat.zero_le cs.length)

/-- C5: for a Product whose name and description are non-empty and whose two
prices are strictly positive, validation yields exactly the single price
issue on `precoVenda` when `precoVenda < precoCusto`, and no issue when
`precoVenda >= precoCusto`. -/
theorem produtoSchema_price_refinement (p : Produto)
    (hn : p.nome ≠ "") (hd : p.descricao ≠ "")
    (hc : 0 < p.precoCusto) (hv : 0 < p.precoVenda) :
    (p.precoVenda < p.precoCusto →
      produtoIssues p
        = [⟨["precoVenda"], "Preço de venda não pode ser menor que o preço de custo"⟩]) ∧
    (p.precoCusto ≤ p.precoVenda → produtoIssues p = []) := by
  have h1 : ¬ (p.nome.length < 1) := by
    have := one_le_length_of_ne_empty p.nome hn
    omega
  have h2 : ¬ (p.descricao.length < 1) := by
    have := one_le_length_of_ne_empty p.descricao hd
    omega
  have h3 : ¬ (p.precoCusto ≤ 0) := not_le.mpr hc
  have h4 : ¬ (p.precoVenda ≤ 0) := not_le.mpr hv
  constructor
  · intro hlt
    simp [produtoIssues, h1, h2, h3, h4, hlt]
  · intro hge
    simp [produtoIssues, h1, h2, h3, h4, not_lt.mpr hge]

/-- Witness: costPrice 10.00 with salePrice 9.99 gives exactly the price
issue on `precoVenda`; equal prices give no issue. -/
theorem produtoSchema_price_refinement_witness :
    produtoIssues ⟨"a", "b", 10, 999/100⟩
      = [⟨["precoVenda"], "Preço de venda não pode ser menor que o preço de custo"⟩] ∧
    produtoIssues ⟨"a", "b", 10, 10⟩ = [] := by
  constructor
  · exact (produtoSchema_price_refinement ⟨"a", "b", 10, 999/100⟩ (by decide) (by decide)
      (by norm_num) (by norm_num)).1 (by norm_num)
  · exact (produtoSchema_price_refinement ⟨"a", "b", 10, 10⟩ (by decide) (by decide)
      (by norm_num) (by norm_num)).2 (by norm_num)

/-- The ASCII character of a decimal digit. -/
def digitChar (n : Nat) : Char := Char.ofNat (48 + n)

theorem isDigit_toNat_bounds (c : Char) (h : c.isDigit = true) :
    48 ≤ c.toNat ∧ c.toNat ≤ 57 := by
  simp only [Char.isDigit, Bool.and_eq_true, decide_eq_true_eq] at h
  exact ⟨UInt32.le_toNat_of_le (by decide) h.1, UInt32.toNat_le_of_le (by decide) h.2⟩

theorem dval_lt_ten (c : Char) (h : c.isDigit = true) : dval c < 10 := by
  have := isDigit_toNat_bounds c h
  unfold dval
  omega

theorem digitChar_dval (c : Char) (h : c.isDigit = true) : digitChar (dval c) = c := by
  have hb := isDigit_toNat_bounds c h
  have he : 48 + dval c = c.toNat := by
    unfold dval
    omega
  rw [digitChar, he, Char.ofNat_toNat]

theorem isDigit_digitChar (n : Nat) (h : n < 10) : (digitChar n).isDigit = true := by
  interval_cases n <;> decide

theorem dval_digitChar (n : Nat) (h : n < 10) : dval (digitChar n) = n := by
  interval_cases n <;> decide

/-- The body of the `dataAdmissao` refine on a string already known to have
exactly ten characters: the character classes of the regex
`^(\d{2})\/(\d{2})\/(\d{4})$`, then the range checks on the `parseInt` values
of the three groups, exactly as the source orders them. -/
def dataAdmissaoCheck10 (d1 d2 s1 m1 m2 s2 a1 a2 a3 a4 : Char) : Bool :=
  if ¬ (d1.isDigit = true ∧ d2.isDigit = true ∧ s1 = '/' ∧ m1.isDigit = true ∧
        m2.isDigit = true ∧ s2 = '/' ∧ a1.isDigit = true ∧ a2.isDigit = true ∧
        a3.isDigit = true ∧ a4.isDigit = true) then false
  else if dval m1 * 10 + dval m2 < 1 ∨ dval m1 * 10 + dval m2 > 12 then false
  else if dval d1 * 10 + dval d2 < 1 ∨ dval d1 * 10 + dval d2 > 31 then false
  else if dval a1 * 1000 + dval a2 * 100 + dval a3 * 10 + dval a4 < 1900 ∨
          dval a1 * 1000 + dval a2 * 100 + dval a3 * 10 + dval a4 > 2100 then false
  else true

/-- The refine of `funcionarioSchema.dataAdmissao` (src/unnamed/part_007,
lines 168-185) on the character list of the input: the regex only matches
ten-character strings of the right shape. -/
def dataAdmissaoRegex (l : List Char) : Bool :=
  match l with
  | [d1, d2, s1, m1, m2, s2, a1, a2, a3, a4] =>
    dataAdmissaoCheck10 d1 d2 s1 m1 m2 s2 a1 a2 a3 a4
  | _ => false

/-- The full admission-date field rule: Zod `min(1)` followed by the refine. -/
def dataAdmissaoAccepts (val : String) : Bool :=
  decide (1 ≤ val.length) && dataAdmissaoRegex val.data

/-- Two-digit zero-padded rendering of a number below 100. -/
def twoDigitChars (n : Nat) : List Char := [digitChar (n / 10), digitChar (n % 10)]

/-- Four-digit zero-padded rendering of a number below 10000. -/
def fourDigitChars (n : Nat) : List Char :=
  [digitChar (n / 1000), digitChar (n / 100 % 10), digitChar (n / 10 % 10), digitChar (n % 10)]

theorem dataAdmissaoRegex_sound (l : List Char) (hr : dataAdmissaoRegex l = true) :
    ∃ dia mes ano : Nat,
      1 ≤ mes ∧ mes ≤ 12 ∧ 1 ≤ dia ∧ dia ≤ 31 ∧ 1900 ≤ ano ∧ ano ≤ 2100 ∧
      l = twoDigitChars dia ++ '/' :: (twoDigitChars mes ++ '/' :: fourDigitChars ano) := by
  rcases l with _ | ⟨d1, _ | ⟨d2, _ | ⟨s1, _ | ⟨m1, _ | ⟨m2, _ | ⟨s2, _ | ⟨a1, _ | ⟨a2, _ |
    ⟨a3, _ | ⟨a4, _ | ⟨e, rest⟩⟩⟩⟩⟩⟩⟩⟩⟩⟩⟩
  all_goals try exact Bool.noConfusion hr
  have hr' : dataAdmissaoCheck10 d1 d2 s1 m1 m2 s2 a1 a2 a3 a4 = true := hr
  unfold dataAdmissaoCheck10 at hr'
  by_cases hdig : d1.isDigit = true ∧ d2.isDigit = true ∧ s1 = '/' ∧ m1.isDigit = true ∧
      m2.isDigit = true ∧ s2 = '/' ∧ a1.isDigit = true ∧ a2.isDigit = true ∧
      a3.isDigit = true ∧ a4.isDigit = true
  case neg =>
    rw [if_pos hdig] at hr'
    exact Bool.noConfusion hr'
  case pos =>
    obtain ⟨h1, h2, h3, h4, h5, h6, h7, h8, h9, h10⟩ := hdig
    rw [if_neg (not_not_intro ⟨h1, h2, h3, h4, h5, h6, h7, h8, h9, h10⟩)] at hr'
    split_ifs at hr' with hc2 hc3 hc4
    subst h3
    subst h6
    refine ⟨dval d1 * 10 + dval d2, dval m1 * 10 + dval m2,
      dval a1 * 1000 + dval a2 * 100 + dval a3 * 10 + dval a4,
      by omega, by omega, by omega, by omega, by omega, by omega, ?_⟩
    have hb2 := dval_lt_ten d2 h2
    have hb5 := dval_lt_ten m2 h5
    have hb8 := dval_lt_ten a2 h8
    have hb9 := dval_lt_ten a3 h9
    have hb10 := dval_lt_ten a4 h10
    have e1 : (dval d1 * 10 + dval d2) / 10 = dval d1 := by omega
    have e2 : (dval d1 * 10 + dval d2) % 10 = dval d2 := by omega
    have e3 : (dval m1 * 10 + dval m2) / 10 = dval m1 := by omega
    have e4 : (dval m1 * 10 + dval m2) % 10 = dval m2 := by omega
    have e5 : (dval a1 * 1000 + dval a2 * 100 + dval a3 * 10 + dval a4) / 1000 = dval a1 := by
      omega
    have e6 : (dval a1 * 1000 + dval a2 * 100 + dval a3 * 10 + dval a4) / 100 % 10 = dval a2 := by
      omega
    have e7 : (dval a1 * 1000 + dval a2 * 100 + dval a3 * 10 + dval a4) / 10 % 10 = dval a3 := by
      omega
    have e8 : (dval a1 * 1000 + dval a2 * 100 + dval a3 * 10 + dval a4) % 10 = dval a4 := by
      omega
    simp only [twoDigitChars, fourDigitChars, List.cons_append, List.nil_append]
    rw [e1, digitChar_dval d1 h1, e2, digitChar_dval d2 h2, e3, digitChar_dval m1 h4,
      e4, digitChar_dval m2 h5, e5, digitChar_dval a1 h7, e6, digitChar_dval a2 h8,
      e7, digitChar_dval a3 h9, e8, digitChar_dval a4 h10]

theorem dataAdmissaoRegex_complete (dia mes ano : Nat)
    (hm1 : 1 ≤ mes) (hm2 : mes ≤ 12) (hd1 : 1 ≤ dia) (hd2 : dia ≤ 31)
    (ha1 : 1900 ≤ ano) (ha2 : ano ≤ 2100) :
    dataAdmissaoRegex
      (twoDigitChars dia ++ '/' :: (twoDigitChars mes ++ '/' :: fourDigitChars ano)) = true := by
  have k1 : dia / 10 < 10 := by omega
  have k2 : dia % 10 < 10 := by omega
  have k3 : mes / 10 < 10 := by omega
  have k4 : mes % 10 < 10 := by omega
  have k5 : ano / 1000 < 10 := by omega
  have k6 : ano / 100 % 10 < 10 := by omega
  have k7 : ano / 10 % 10 < 10 := by omega
  have k8 : ano % 10 < 10 := by omega
  have hstep : dataAdmissaoRegex
      (twoDigitChars dia ++ '/' :: (twoDigitChars mes ++ '/' :: fourDigitChars ano))
    = dataAdmissaoCheck10 (digitChar (dia / 10)) (digitChar (dia % 10)) '/'
        (digitChar (mes / 10)) (digitChar (mes % 10)) '/'
        (digitChar (ano / 1000)) (digitChar (ano / 100 % 10))
        (digitChar (ano / 10 % 10)) (digitChar (ano % 10)) := rfl
  rw [hstep]
  unfold dataAdmissaoCheck10
  rw [if_neg (not_not_intro ⟨isDigit_digitChar _ k1, isDigit_digitChar _ k2, rfl,
    isDigit_digitChar _ k3, isDigit_digitChar _ k4, rfl, isDigit_digitChar _ k5,
    isDigit_digitChar _ k6, isDigit_digitChar _ k7, isDigit_digitChar _ k8⟩)]
  rw [dval_digitChar _ k1, dval_digitChar _ k2, dval_digitChar _ k3, dval_digitChar _ k4,
    dval_digitChar _ k5, dval_digitChar _ k6, dval_digitChar _ k7, dval_digitChar _ k8]
  rw [if_neg (by omega), if_neg (by omega), if_neg (by omega)]

/-- C6: the admission-date rule accepts exactly the strings rendering a
two-digit day, two-digit month and four-digit year separated by slashes with
day in 1..31, month in 1..12 and year in 1900..2100 (no per-month day-count
or leap-year check); in particular the calendar-invalid "31/02/2024" is
accepted. -/
theorem dataAdmissao_characterization :
    (∀ val : String, dataAdmissaoAccepts val = true ↔
      ∃ dia mes ano : Nat,
        1 ≤ mes ∧ mes ≤ 12 ∧ 1 ≤ dia ∧ dia ≤ 31 ∧ 1900 ≤ ano ∧ ano ≤ 2100 ∧
        val.data = twoDigitChars dia ++ '/' :: (twoDigitChars mes ++ '/' :: fourDigitChars ano)) ∧
    dataAdmissaoAccepts "31/02/2024" = true := by
  constructor
  · intro val
    constructor
    · intro h
      have hr : dataAdmissaoRegex val.data = true := by
        rw [dataAdmissaoAccepts, Bool.and_eq_true] at h
        exact h.2
      exact dataAdmissaoRegex_sound val.data hr
    · rintro ⟨dia, mes, ano, hm1, hm2, hd1, hd2, ha1, ha2, hdata⟩
      have hlen : 1 ≤ val.length := by
        have hvl : val.length = val.data.length := rfl
        rw [hvl, hdata]
        simp [twoDigitChars, fourDigitChars]
      unfold dataAdmissaoAccepts
      rw [hdata, decide_eq_true hlen, Bool.true_and]
      exact dataAdmissaoRegex_complete dia mes ano hm1 hm2 hd1 hd2 ha1 ha2
  · decide

/-- The numeric value of a list of decimal digit characters. -/
def digitsToNat (ds : List Char) : Nat := ds.foldl (fun n c => n * 10 + dval c) 0

/-- The JS `StrWhiteSpaceChar` set skipped by `parseFloat`: the WhiteSpace
code points (TAB, VT, FF, SP, NBSP, ZWNBSP and the Unicode space
separators) and the LineTerminator code points (LF, CR, LS, PS). -/
def jsWhitespace (c : Char) : Bool :=
  c.toNat = 9 ∨ c.toNat = 10 ∨ c.toNat = 11 ∨ c.toNat = 12 ∨ c.toNat = 13 ∨
  c.toNat = 32 ∨ c.toNat = 160 ∨ c.toNat = 0x1680 ∨
  (0x2000 ≤ c.toNat ∧ c.toNat ≤ 0x200A) ∨
  c.toNat = 0x2028 ∨ c.toNat = 0x2029 ∨ c.toNat = 0x202F ∨ c.toNat = 0x205F ∨
  c.toNat = 0x3000 ∨ c.toNat = 0xFEFF

/-- The result of JS `parseFloat` before IEEE-754 rounding: an `Infinity`
literal with its sign, or the exact rational value of a finite decimal
literal (`NaN` is modelled as `none` at the use site). -/
inductive JsFloat where
  | infinite (neg : Bool)
  | finite (q : ℚ)
deriving DecidableEq

/-- Modelled JS `parseFloat`: skip leading whitespace, take an optional
sign, then either the `Infinity` literal or the longest prefix of the form
`digits [. digits] [e|E [sign] digits]` with at least one mantissa digit,
ignoring any trailing characters; `none` models `NaN`. A finite literal
keeps its exact rational value; `jsPos` applies the IEEE-754 rounding where
it affects the sign test of the source. -/
def parseFloatJs (s : String) : Option JsFloat :=
  let cs0 := s.data.dropWhile jsWhitespace
  let neg : Bool := match cs0 with
    | '-' :: _ => true
    | _ => false
  let cs1 : List Char := match cs0 with
    | '-' :: rest => rest
    | '+' :: rest => rest
    | _ => cs0
  if cs1.take 8 = ['I', 'n', 'f', 'i', 'n', 'i', 't', 'y'] then some (.infinite neg)
  else
    let ipart := cs1.takeWhile Char.isDigit
    let cs2 := cs1.dropWhile Char.isDigit
    let fpart : List Char := match cs2 with
      | '.' :: rest => rest.takeWhile Char.isDigit
      | _ => []
    let cs3 : List Char := match cs2 with
      | '.' :: rest => rest.dropWhile Char.isDigit
      | _ => cs2
    if ipart.isEmpty ∧ fpart.isEmpty then none
    else
      let epart : Bool × Nat := match cs3 with
        | c :: rest =>
          if c = 'e' ∨ c = 'E' then
            let rest2 : List Char := match rest with
              | '-' :: r2 => r2
              | '+' :: r2 => r2
              | _ => rest
            let eds := rest2.takeWhile Char.isDigit
            if eds.isEmpty then (false, 0)
            else
              (match rest with
                | '-' :: _ => true
                | _ => false,
               digitsToNat eds)
          else (false, 0)
        | [] => (false, 0)
      let base : Int := if neg then -(digitsToNat (ipart ++ fpart) : Int)
        else (digitsToNat (ipart ++ fpart) : Int)
      some (.finite (if epart.1 then mkRat base (10 ^ fpart.length * 10 ^ epart.2)
        else mkRat (base * 10 ^ epart.2) (10 ^ fpart.length)))

set_option maxRecDepth 4000 in
/-- The denominator of `2 ^ (-1075)`, the IEEE-754 positivity threshold
used by `jsPos`. -/
def underflowDen : Nat := 2 ^ 1075

/-- Whether the JS number value of a `parseFloat` result is strictly
positive. A positive `Infinity` is. For a finite literal, IEEE-754 double
rounding (round to nearest, ties to even) sends the exact value to a
strictly positive double exactly when it exceeds `2 ^ (-1075)`, half the
smallest positive subnormal: at or below that threshold it rounds to `+0`
(the tie picks the even significand 0), above it to at least `2 ^ (-1074)`;
a zero or negative exact value never rounds positive, and overflow yields
`+Infinity`, which is still positive, so no upper threshold is needed. -/
def jsPos : JsFloat → Bool
  | .infinite neg => !neg
  | .finite q => decide (mkRat 1 underflowDen < q)

/-- The `salario` field rule of `funcionarioSchema` (src/unnamed/part_007,
lines 164-167): `min(1)`, then `!isNaN(parseFloat(val)) && parseFloat(val) > 0`. -/
def salarioAccepts (val : String) : Bool :=
  decide (1 ≤ val.length) &&
    (match parseFloatJs val with
     | some num => jsPos num
     | none => false)

set_option maxRecDepth 100000 in
/-- C10: the salary rule accepts exactly the non-empty strings whose longest
leading number prefix parses to a strictly positive JS number value,
trailing garbage allowed: "10abc" and "3.5xyz" pass while "abc", "0" and
"-5" fail; likewise "Infinity" passes and "1e-400", which underflows to
zero, fails. -/
theorem salario_rule_characterization :
    (∀ val : String, salarioAccepts val = true ↔
        val ≠ "" ∧ ∃ r : JsFloat, parseFloatJs val = some r ∧ jsPos r = true) ∧
    salarioAccepts "10abc" = true ∧ salarioAccepts "3.5xyz" = true ∧
    salarioAccepts "abc" = false ∧ salarioAccepts "0" = false ∧
    salarioAccepts "-5" = false ∧
    salarioAccepts "Infinity" = true ∧ salarioAccepts "1e-400" = false := by
  constructor
  · intro val
    unfold salarioAccepts
    rw [Bool.and_eq_true, decide_eq_true_eq]
    constructor
    · rintro ⟨h1, h2⟩
      refine ⟨fun he => absurd h1 (by rw [he]; decide), ?_⟩
      cases hpf : parseFloatJs val with
      | none =>
        rw [hpf] at h2
        exact Bool.noConfusion h2
      | some r =>
        rw [hpf] at h2
        exact ⟨r, rfl, h2⟩
    · rintro ⟨hne, r, hr, hpos⟩
      refine ⟨one_le_length_of_ne_empty val hne, ?_⟩
      rw [hr]
      exact hpos
  · refine ⟨?_, ?_, ?_, ?_, ?_, ?_, ?_⟩ <;> decide

/-- One step of the `forEach` loop of `handleSubmit` (src/unnamed/part_004
and part_000, lines 115-119): when `issue.path[0]` is truthy (present and
non-empty), assign `fieldErrors[issue.path[0]] = issue.message`, overwriting
any earlier entry. -/
def applyIssue (m : String → Option String) (i : ZIssue) : String → Option String :=
  match i.path.head? with
  | some f => if f = "" then m else fun x => if x = f then some i.message else m x
  | none => m

/-- The per-field error mapping built by `handleSubmit` from the ordered
issue list, starting from the empty object. -/
def buildFieldErrors (issues : List ZIssue) : String → Option String :=
  issues.foldl applyIssue (fun _ => none)

/-- The transient notification of `handleSubmit`: the message of
`issues[0]` when present. -/
def firstErrorToast (issues : List ZIssue) : Option String :=
  issues.head?.map ZIssue.message

/-- The mapping the spec claims: each failing field mapped to the message of
the FIRST issue in the list whose path names it. -/
def firstErrorFor (issues : List ZIssue) (f : String) : Option String :=
  if f = "" then none
  else (issues.find? (fun i => i.path.head? == some f)).map ZIssue.message

/-- The mapping the code actually builds: each failing field mapped to the
message of the LAST issue in the list whose path names it. -/
def lastErrorFor (issues : List ZIssue) (f : String) : Option String :=
  if f = "" then none
  else ((issues.filter (fun i => i.path.head? == some f)).getLast?).map ZIssue.message

theorem foldl_applyIssue_empty_key (issues : List ZIssue) :
    ∀ m : String → Option String, (issues.foldl applyIssue m) "" = m "" := by
  induction issues with
  | nil => intro m; rfl
  | cons i rest ih =>
    intro m
    rw [List.foldl_cons, ih]
    cases hip : i.path.head? with
    | none => simp [applyIssue, hip]
    | some g =>
      by_cases hg : g = ""
      · subst hg
        simp [applyIssue, hip]
      · simp only [applyIssue, hip]
        rw [if_neg hg]
        exact if_neg (fun h => hg h.symm)

theorem foldl_applyIssue_eval (issues : List ZIssue) (m : String → Option String)
    (f : String) (hf : f ≠ "") :
    (issues.foldl applyIssue m) f
      = ((issues.filter (fun i => i.path.head? == some f)).getLast?).elim (m f)
          (fun i => some i.message) := by
  induction issues using List.reverseRecOn with
  | nil => simp
  | append_singleton is i ih =>
    rw [List.foldl_append, List.foldl_cons, List.foldl_nil, List.filter_append]
    cases hip : i.path.head? with
    | none =>
      have happ : applyIssue (is.foldl applyIssue m) i = is.foldl applyIssue m := by
        simp [applyIssue, hip]
      have hpi : (i.path.head? == some f) = false := by simp [hip]
      rw [happ, ih]
      simp [List.filter_cons, hpi]
    | some g =>
      by_cases hgf : g = f
      · have happ : applyIssue (is.foldl applyIssue m) i f = some i.message := by
          simp only [applyIssue, hip, hgf]
          rw [if_neg hf]
          simp
        have hpi : (i.path.head? == some f) = true := by simp [hip, hgf]
        rw [happ]
        simp [List.filter_cons, hpi]
      · have happ : applyIssue (is.foldl applyIssue m) i f = (is.foldl applyIssue m) f := by
          cases hg : decide (g = "") with
          | true =>
            have hg' : g = "" := of_decide_eq_true hg
            simp [applyIssue, hip, hg']
          | false =>
            have hg' : ¬ g = "" := of_decide_eq_false hg
            simp only [applyIssue, hip]
            rw [if_neg hg']
            exact if_neg (fun h => hgf h.symm)
        have hpi : (i.path.head? == some f) = false := by simp [hip, hgf]
        rw [happ, ih]
        simp [List.filter_cons, hpi]

theorem buildFieldErrors_eq_last (issues : List ZIssue) (f : String) :
    buildFieldErrors issues f = lastErrorFor issues f := by
  by_cases hf : f = ""
  · subst hf
    rw [buildFieldErrors, foldl_applyIssue_empty_key, lastErrorFor, if_pos rfl]
  · rw [buildFieldErrors, foldl_applyIssue_eval issues (fun _ => none) f hf,
      lastErrorFor, if_neg hf]
    cases hgl : (issues.filter (fun i => i.path.head? == some f)).getLast? with
    | none => rfl
    | some i => rfl

/-- C7 counterexample: on an ordered issue list with two issues on the same
field, the mapping built by `handleSubmit` does not hold the message of the
first issue naming the field. -/
theorem fieldErrors_counterexample :
    buildFieldErrors
        [⟨["salario"], "A"⟩, ⟨["salario"], "B"⟩] "salario"
      ≠ firstErrorFor
        [⟨["salario"], "A"⟩, ⟨["salario"], "B"⟩] "salario" := by
  decide

/-- C7 (amended): the per-field mapping holds, for each failing field, the
message of the LAST issue in the ordered list whose path names that field
(each later issue on an already-failed field overwrites the tracked one),
and the surfaced notification is the message of the very first issue. -/
theorem fieldErrors_mapping_and_toast (issues : List ZIssue) (f : String) :
    buildFieldErrors issues f = lastErrorFor issues f ∧
    firstErrorToast issues = issues.head?.map ZIssue.message :=
  ⟨buildFieldErrors_eq_last issues f, rfl⟩

/-- A customer record as returned by the listing endpoint, as the duplicate
check reads it: the stored identifier (possibly absent) and the numeric
identity key (possibly absent). -/
structure ClienteRecord where
  cpfCnpj : Option String
  id : Option Nat

/-- The predicate of the `find` call in `handleSubmit` (src/unnamed/part_004,
lines 141-148): when editing, the record whose `id.toString()` equals the
route parameter is skipped; otherwise the record matches when its stored
identifier, stripped of non-digits, equals the cleaned submitted identifier
(an absent stored identifier never matches). -/
def clienteMatches (editing : Bool) (clienteId limpo : String) (c : ClienteRecord) : Bool :=
  if editing = true ∧ c.id.map Nat.repr = some clienteId then false
  else decide (c.cpfCnpj.map stripNonDigits = some limpo)

/-- `cpfExistente`: the first matching record, if any. -/
def cpfExistente (clientes : List ClienteRecord) (editing : Bool)
    (clienteId limpo : String) : Option ClienteRecord :=
  clientes.find? (clienteMatches editing clienteId limpo)

/-- Whether `handleSubmit` raises the duplicate-identifier error: the listing
query result is `some` list on success and `none` on failure; on failure the
catch block proceeds as if no duplicate was found. -/
def duplicateErrorRaised (fetched : Option (List ClienteRecord)) (editing : Bool)
    (clienteId cpfcnpjField : String) : Bool :=
  match fetched with
  | some clientes =>
    (cpfExistente clientes editing clienteId (stripNonDigits cpfcnpjField)).isSome
  | none => false

theorem clienteMatches_iff (editing : Bool) (clienteId limpo : String) (c : ClienteRecord) :
    clienteMatches editing clienteId limpo c = true ↔
      c.cpfCnpj.map stripNonDigits = some limpo ∧
      ¬ (editing = true ∧ c.id.map Nat.repr = some clienteId) := by
  unfold clienteMatches
  split_ifs with h
  · exact iff_of_false (by simp) (fun hc => hc.2 h)
  · rw [decide_eq_true_eq]
    exact ⟨fun hp => ⟨hp, h⟩, fun hc => hc.1⟩

/-- C8: on a successful listing query, the duplicate error is raised exactly
when some returned record has a stored identifier whose digit-cleaned form
equals the digit-cleaned submitted identifier and is not the record being
edited (compared by its identity key); on a failed query no duplicate error
is raised. -/
theorem duplicate_check_characterization :
    (∀ (clientes : List ClienteRecord) (editing : Bool) (clienteId cpfcnpjField : String),
        duplicateErrorRaised (some clientes) editing clienteId cpfcnpjField = true ↔
          ∃ c ∈ clientes,
            c.cpfCnpj.map stripNonDigits = some (stripNonDigits cpfcnpjField) ∧
            ¬ (editing = true ∧ c.id.map Nat.repr = some clienteId)) ∧
    (∀ (editing : Bool) (clienteId cpfcnpjField : String),
        duplicateErrorRaised none editing clienteId cpfcnpjField = false) := by
  constructor
  · intro clientes editing clienteId cpfcnpjField
    unfold duplicateErrorRaised cpfExistente
    rw [List.find?_isSome]
    constructor
    · rintro ⟨c, hc, hm⟩
      exact ⟨c, hc, (clienteMatches_iff editing clienteId _ c).mp hm⟩
    · rintro ⟨c, hc, hm⟩
      exact ⟨c, hc, (clienteMatches_iff editing clienteId _ c).mpr hm⟩
  · intro editing clienteId cpfcnpjField
    rfl
